import Mathlib

/-!
Verification of the bank-reconciliation transaction matcher from the
financial-pdf repository (src/core/formatter.ts, lines 241-530, together
with the reconciliation type declarations and the summary generator).

Transactions are embedded as records; JavaScript Date values are embedded
by their getTime() millisecond timestamp (an integer); JavaScript numbers
are embedded as rationals; the mutable working arrays of the matcher are
embedded by explicit state passing, with the reverse-index loops rendered
as structural recursion that processes the head of the list last.
-/

namespace FinancialPdf

/-- Transaction type tag, informational only (source: types, field type). -/
inductive TxType where
  | debit
  | credit
deriving DecidableEq, Repr

/-- A transaction record (source: interface Transaction).  The date field
holds the getTime() timestamp in milliseconds.  The metadata record is
embedded as an association list of strings. -/
structure Transaction where
  id : String
  date : Int
  description : String
  amount : ℚ
  type : TxType
  category : Option String := none
  reference : Option String := none
  matched : Option Bool := none
  matchId : Option String := none
  metadata : List (String × String) := []
deriving DecidableEq, Repr

/-- Account information (source: interface AccountInfo). -/
structure AccountInfo where
  name : String
  number : String
  bank : Option String := none
  currency : String
  openingBalance : ℚ
  closingBalance : ℚ
deriving DecidableEq, Repr

/-- Caller-supplied reconciliation settings: every field optional
(source: interface ReconciliationSettings). -/
structure ReconciliationSettings where
  fuzzyMatching : Option Bool := none
  fuzzyThreshold : Option ℚ := none
  matchByAmount : Option Bool := none
  matchByDescription : Option Bool := none
  matchByReference : Option Bool := none
  matchByDate : Option Bool := none
  dateTolerance : Option ℚ := none
  autoMatchExact : Option Bool := none
deriving DecidableEq, Repr

/-- Fully-defaulted settings, as built by the spread expression at the top
of processReconciliation. -/
structure MergedSettings where
  fuzzyMatching : Bool
  fuzzyThreshold : ℚ
  matchByAmount : Bool
  matchByDescription : Bool
  matchByReference : Bool
  matchByDate : Bool
  dateTolerance : ℚ
  autoMatchExact : Bool
deriving DecidableEq, Repr

/-- The default settings object spread first in processReconciliation. -/
def defaultSettings : MergedSettings where
  fuzzyMatching := true
  fuzzyThreshold := 7/10
  matchByAmount := true
  matchByDescription := true
  matchByReference := true
  matchByDate := true
  dateTolerance := 3
  autoMatchExact := true

/-- Shallow merge of caller settings over the defaults, field by field
(source: the object spread in processReconciliation, lines 243-253). -/
def mergeSettings (o : Option ReconciliationSettings) : MergedSettings :=
  match o with
  | none => defaultSettings
  | some s =>
    { fuzzyMatching := s.fuzzyMatching.getD true
      fuzzyThreshold := s.fuzzyThreshold.getD (7/10)
      matchByAmount := s.matchByAmount.getD true
      matchByDescription := s.matchByDescription.getD true
      matchByReference := s.matchByReference.getD true
      matchByDate := s.matchByDate.getD true
      dateTolerance := s.dateTolerance.getD 3
      autoMatchExact := s.autoMatchExact.getD true }

/-- Match method tag (source: MatchedTransaction.matchMethod). -/
inductive MatchMethod where
  | exact
  | fuzzy
  | manual
deriving DecidableEq, Repr

/-- A matched bank/book pair (source: interface MatchedTransaction). -/
structure MatchedTransaction where
  bankTransaction : Transaction
  bookTransaction : Transaction
  confidence : ℚ
  matchMethod : MatchMethod
deriving DecidableEq, Repr

/-- Reconciliation status tag. -/
inductive RecStatus where
  | balanced
  | unbalanced
deriving DecidableEq, Repr

/-- Reconciliation summary (source: interface ReconciliationSummary). -/
structure ReconciliationSummary where
  matchedAmount : ℚ
  unmatchedBankAmount : ℚ
  unmatchedBookAmount : ℚ
  discrepancy : ℚ
  status : RecStatus
  matchPercentage : ℚ
deriving DecidableEq, Repr

/-- Output of matchTransactions before the summary is attached. -/
structure MatchOutput where
  matched : List MatchedTransaction
  unmatchedBank : List Transaction
  unmatchedBook : List Transaction
deriving DecidableEq, Repr

/-- Full result of processReconciliation (source: interface MatchResults). -/
structure MatchResults where
  matched : List MatchedTransaction
  unmatchedBank : List Transaction
  unmatchedBook : List Transaction
  summary : ReconciliationSummary
deriving DecidableEq, Repr

/-- Input of processReconciliation (source: interface ReconciliationData).
The statement period is carried as two timestamps; it is never read by the
matching core. -/
structure ReconciliationData where
  account : AccountInfo
  periodStart : Int
  periodEnd : Int
  bankTransactions : List Transaction
  bookTransactions : List Transaction
  settings : Option ReconciliationSettings := none
deriving DecidableEq, Repr

/-! String utilities embedding the JavaScript primitives used by
calculateStringSimilarity: String.prototype.includes, toLowerCase, and
split on a whitespace run. -/

/-- Does the haystack start with the needle (JavaScript startsWith on
character lists)?  An empty needle always matches. -/
def listStartsWith : List Char → List Char → Bool
  | _, [] => true
  | [], _ :: _ => false
  | a :: as, b :: bs => a = b && listStartsWith as bs

/-- JavaScript String.prototype.includes on character lists: the needle
occurs contiguously somewhere in the haystack.  The empty needle is
contained in every haystack. -/
def listContains (hay needle : List Char) : Bool :=
  match hay with
  | [] => listStartsWith [] needle
  | _ :: tl => listStartsWith hay needle || listContains tl needle

/-- JavaScript s.includes(t). -/
def jsIncludes (s t : String) : Bool :=
  listContains s.data t.data

/-- JavaScript toLowerCase, character by character. -/
def jsToLower (s : String) : String :=
  ⟨s.data.map Char.toLower⟩

/-- Split a character list on maximal whitespace runs, with the JavaScript
semantics of split on a whitespace-run pattern: a leading or trailing run
produces an empty boundary token, and the empty string yields one empty
token. -/
def splitWhitespace : List Char → List (List Char)
  | [] => [[]]
  | c :: rest =>
    if c.isWhitespace then
      match rest with
      | [] => [[], []]
      | r :: _ =>
        if r.isWhitespace then splitWhitespace rest
        else [] :: splitWhitespace rest
    else
      match splitWhitespace rest with
      | t :: ts => (c :: t) :: ts
      | [] => [[c]]

/-- Rule 3 of the similarity scorer: tokenize on whitespace, count tokens
of the first string longer than 3 characters that contain or are contained
in some token of the second string, divide by the token count of the first
string (at least 1), cap at 1 (source: calculateStringSimilarity, lines
481-491). -/
def tokenScore (str1 str2 : String) : ℚ :=
  let words1 := splitWhitespace str1.data
  let words2 := splitWhitespace str2.data
  let matchCount :=
    (words1.filter (fun w1 =>
      decide (w1.length > 3) &&
        words2.any (fun w2 => listContains w2 w1 || listContains w1 w2))).length
  min 1 ((matchCount : ℚ) / ((max words1.length 1 : Nat) : ℚ))

/-- The similarity scorer (source: calculateStringSimilarity, lines
474-492): rule 1 exact equality, rule 2 substring containment, rule 3
token counting. -/
def calculateStringSimilarity (str1 str2 : String) : ℚ :=
  if str1 = str2 then 1
  else if jsIncludes str1 str2 || jsIncludes str2 str1 then 8/10
  else tokenScore str1 str2

/-- Amount factor of the confidence model (source:
calculateMatchConfidence, lines 414-421): full weight 0.4 on exact amount
equality, no partial credit; weight excluded when disabled.  The first
component is the score contribution, the second the weight contribution. -/
def amountFactor (bankTx bookTx : Transaction) (s : MergedSettings) : ℚ × ℚ :=
  if s.matchByAmount then
    (if bankTx.amount = bookTx.amount then 4/10 else 0, 4/10)
  else (0, 0)

/-- Day difference between the two transaction dates: absolute timestamp
difference divided by the length of a day in milliseconds (source: lines
428-429). -/
def daysDiff (bankTx bookTx : Transaction) : ℚ :=
  (|bankTx.date - bookTx.date| : ℤ) / (1000 * 60 * 60 * 24)

/-- Date factor (source: lines 424-436): weight 0.3 scaled linearly from
full at zero day difference to zero at the tolerance boundary; zero score
beyond tolerance. -/
def dateFactor (bankTx bookTx : Transaction) (s : MergedSettings) : ℚ × ℚ :=
  if s.matchByDate then
    (if daysDiff bankTx bookTx ≤ s.dateTolerance then
        (3/10) * (1 - daysDiff bankTx bookTx / s.dateTolerance)
      else 0, 3/10)
  else (0, 0)

/-- Description factor (source: lines 439-449): weight 0.2 times the
similarity of the lowercased descriptions, evaluated only when the factor
is enabled and both descriptions are non-empty (JavaScript truthiness). -/
def descFactor (bankTx bookTx : Transaction) (s : MergedSettings) : ℚ × ℚ :=
  if s.matchByDescription ∧ bankTx.description ≠ "" ∧ bookTx.description ≠ "" then
    ((2/10) * calculateStringSimilarity (jsToLower bankTx.description)
      (jsToLower bookTx.description), 2/10)
  else (0, 0)

/-- Reference factor (source: lines 452-462): weight 0.1 times the
similarity of the lowercased references, evaluated only when the factor is
enabled and both references are present and non-empty. -/
def refFactor (bankTx bookTx : Transaction) (s : MergedSettings) : ℚ × ℚ :=
  match bankTx.reference, bookTx.reference with
  | some r1, some r2 =>
    if s.matchByReference ∧ r1 ≠ "" ∧ r2 ≠ "" then
      ((1/10) * calculateStringSimilarity (jsToLower r1) (jsToLower r2), 1/10)
    else (0, 0)
  | _, _ => (0, 0)

/-- The confidence model (source: calculateMatchConfidence, lines
405-466): weighted sum over the enabled factors, normalized by the total
enabled weight, zero when no factor is enabled. -/
def calculateMatchConfidence (bankTx bookTx : Transaction) (s : MergedSettings) : ℚ :=
  let totalScore := (amountFactor bankTx bookTx s).1 + (dateFactor bankTx bookTx s).1 +
    (descFactor bankTx bookTx s).1 + (refFactor bankTx bookTx s).1
  let totalWeight := (amountFactor bankTx bookTx s).2 + (dateFactor bankTx bookTx s).2 +
    (descFactor bankTx bookTx s).2 + (refFactor bankTx bookTx s).2
  if 0 < totalWeight then totalScore / totalWeight else 0

/-! The matcher engine.  The source iterates the bank array from the last
index toward index 0, splicing matched entries out of both arrays.  Since
a removal at the current index never moves an entry at a lower index, the
loop is embedded as structural recursion in which the head of the bank
list is processed last, after the whole tail has been processed against
the successively reduced book list. -/

/-- The exact-match test of phase 1 (source: the findIndex predicate in
findExactMatches, lines 329-333): amount, date timestamp and reference
all strictly equal. -/
def isExactMatch (bankTx bookTx : Transaction) : Bool :=
  decide (bookTx.amount = bankTx.amount ∧ bookTx.date = bankTx.date ∧
    bookTx.reference = bankTx.reference)

/-- JavaScript findIndex for the exact-match predicate, returning the
first matching index together with the element found there. -/
def findExactIdx (bankTx : Transaction) : List Transaction → Option (Nat × Transaction)
  | [] => none
  | k :: rest =>
    if isExactMatch bankTx k then some (0, k)
    else
      match findExactIdx bankTx rest with
      | some (j, k₀) => some (j + 1, k₀)
      | none => none

/-- Phase 1 (source: findExactMatches, lines 319-350).  Returns the
remaining bank list, the remaining book list, and the matches pushed, in
push order (highest bank index first). -/
def findExactMatches :
    List Transaction → List Transaction →
      List Transaction × List Transaction × List MatchedTransaction
  | [], book => ([], book, [])
  | b :: rest, book =>
    let step := findExactMatches rest book
    match findExactIdx b step.2.1 with
    | some (j, k) =>
      (step.1, step.2.1.eraseIdx j,
        step.2.2 ++ [⟨b, k, 1, MatchMethod.exact⟩])
    | none => (b :: step.1, step.2.1, step.2.2)

/-- One step of the incumbent update in the inner loop of
findFuzzyMatches (source: lines 376-378): a candidate replaces the
incumbent only when its confidence clears the threshold and strictly
exceeds the incumbent confidence. -/
def fuzzyStep (s : MergedSettings) (j : Nat) (k : Transaction) (c : ℚ)
    (best : Option (Nat × Transaction × ℚ)) : Option (Nat × Transaction × ℚ) :=
  if s.fuzzyThreshold ≤ c then
    match best with
    | none => some (j, k, c)
    | some (j₀, k₀, c₀) => if c₀ < c then some (j, k, c) else some (j₀, k₀, c₀)
  else best

/-- The inner loop of findFuzzyMatches over the book list, carrying the
next index and the incumbent best candidate. -/
def findBestFuzzy (bankTx : Transaction) (s : MergedSettings) :
    List Transaction → Nat → Option (Nat × Transaction × ℚ) →
      Option (Nat × Transaction × ℚ)
  | [], _, best => best
  | k :: rest, j, best =>
    findBestFuzzy bankTx s rest (j + 1)
      (fuzzyStep s j k (calculateMatchConfidence bankTx k s) best)

/-- The best fuzzy candidate for one bank transaction: index, book
transaction and confidence (source: the bestMatch scan, lines 368-379). -/
def bestFuzzy (bankTx : Transaction) (book : List Transaction)
    (s : MergedSettings) : Option (Nat × Transaction × ℚ) :=
  findBestFuzzy bankTx s book 0 none

/-- Phase 2 (source: findFuzzyMatches, lines 359-396), same reverse
iteration shape as phase 1. -/
def findFuzzyMatches :
    List Transaction → List Transaction → MergedSettings →
      List Transaction × List Transaction × List MatchedTransaction
  | [], book, _ => ([], book, [])
  | b :: rest, book, s =>
    let step := findFuzzyMatches rest book s
    match bestFuzzy b step.2.1 s with
    | some (j, k, c) =>
      (step.1, step.2.1.eraseIdx j,
        step.2.2 ++ [⟨b, k, c, MatchMethod.fuzzy⟩])
    | none => (b :: step.1, step.2.1, step.2.2)

/-- The matcher engine (source: matchTransactions, lines 281-311): clone
the input lists, run phase 1 when autoMatchExact is set, run phase 2 when
fuzzyMatching is set, return the accumulated matches and the remaining
lists. -/
def matchTransactions (bankTransactions bookTransactions : List Transaction)
    (s : MergedSettings) : MatchOutput :=
  let phase1 :=
    if s.autoMatchExact then findExactMatches bankTransactions bookTransactions
    else (bankTransactions, bookTransactions, [])
  let phase2 :=
    if s.fuzzyMatching then findFuzzyMatches phase1.1 phase1.2.1 s
    else (phase1.1, phase1.2.1, [])
  { matched := phase1.2.2 ++ phase2.2.2
    unmatchedBank := phase2.1
    unmatchedBook := phase2.2.1 }

/-- The summary calculator (source: calculateReconciliationSummary, lines
502-530).  The account argument is accepted and ignored, as in the
source. -/
def calculateReconciliationSummary (account : AccountInfo)
    (matched : List MatchedTransaction)
    (unmatchedBank unmatchedBook : List Transaction) : ReconciliationSummary :=
  let matchedAmount := matched.foldl (fun sum m => sum + m.bankTransaction.amount) 0
  let unmatchedBankAmount := unmatchedBank.foldl (fun sum tx => sum + tx.amount) 0
  let unmatchedBookAmount := unmatchedBook.foldl (fun sum tx => sum + tx.amount) 0
  let discrepancy := unmatchedBankAmount - unmatchedBookAmount
  let totalTransactions := matched.length + unmatchedBank.length + unmatchedBook.length
  let matchPercentage : ℚ :=
    if totalTransactions > 0 then ((matched.length : ℚ) / totalTransactions) * 100
    else 100
  { matchedAmount := matchedAmount
    unmatchedBankAmount := unmatchedBankAmount
    unmatchedBookAmount := unmatchedBookAmount
    discrepancy := discrepancy
    status := if |discrepancy| < 1/100 then RecStatus.balanced else RecStatus.unbalanced
    matchPercentage := matchPercentage }

/-- The duplicate summary implementation from the unnamed reconciliation
summary module (generateReconciliationSummary), transcribed separately so
the two can be compared. -/
def generateReconciliationSummary (account : AccountInfo)
    (matched : List MatchedTransaction)
    (unmatchedBank unmatchedBook : List Transaction) : ReconciliationSummary :=
  let matchedAmount := matched.foldl (fun sum m => sum + m.bankTransaction.amount) 0
  let unmatchedBankAmount := unmatchedBank.foldl (fun sum tx => sum + tx.amount) 0
  let unmatchedBookAmount := unmatchedBook.foldl (fun sum tx => sum + tx.amount) 0
  let discrepancy := unmatchedBankAmount - unmatchedBookAmount
  let totalTransactions := matched.length + unmatchedBank.length + unmatchedBook.length
  let matchPercentage : ℚ :=
    if totalTransactions > 0 then ((matched.length : ℚ) / totalTransactions) * 100
    else 100
  { matchedAmount := matchedAmount
    unmatchedBankAmount := unmatchedBankAmount
    unmatchedBookAmount := unmatchedBookAmount
    discrepancy := discrepancy
    status := if |discrepancy| < 1/100 then RecStatus.balanced else RecStatus.unbalanced
    matchPercentage := matchPercentage }

/-- The orchestrator (source: processReconciliation, lines 241-272). -/
def processReconciliation (data : ReconciliationData) : MatchResults :=
  let settings := mergeSettings data.settings
  let matchResults := matchTransactions data.bankTransactions data.bookTransactions settings
  let summary := calculateReconciliationSummary data.account
    matchResults.matched matchResults.unmatchedBank matchResults.unmatchedBook
  { matched := matchResults.matched
    unmatchedBank := matchResults.unmatchedBank
    unmatchedBook := matchResults.unmatchedBook
    summary := summary }

/-! Concrete transactions used in the scenario theorems: the Office
Supplies boundary scenario, the REF1 exact-match scenario, a same-fields
tie-break input, and a fuzzy-match input with a one-day date offset. -/

/-- Bank side of the Office Supplies scenario: 2023-06-15 as a millisecond
timestamp. -/
def b1 : Transaction :=
  { id := "b1", date := 1686787200000, description := "Office Supplies",
    amount := -350, type := TxType.debit }

/-- Book side of the Office Supplies scenario: 2023-06-18. -/
def k1 : Transaction :=
  { id := "k1", date := 1687046400000, description := "Office Supplies Purchase",
    amount := -350, type := TxType.debit }

/-- Sample account, unused by the matcher. -/
def acctSample : AccountInfo :=
  { name := "Checking", number := "001", currency := "USD",
    openingBalance := 0, closingBalance := 0 }

/-- Bank side of the REF1 exact-match scenario: 2023-06-15, amount 5000. -/
def refBank : Transaction :=
  { id := "b1", date := 1686787200000, description := "Invoice",
    amount := 5000, type := TxType.credit, reference := some "REF1" }

/-- Book side of the REF1 exact-match scenario: identical amount, date and
reference. -/
def refBook : Transaction :=
  { id := "k1", date := 1686787200000, description := "Invoice payment",
    amount := 5000, type := TxType.credit, reference := some "REF1" }

/-- First bank transaction of the tie-break input. -/
def cexBank1 : Transaction :=
  { id := "cb1", date := 0, description := "x", amount := 1, type := TxType.debit }

/-- Second bank transaction of the tie-break input, with the same amount,
date and absent reference as the first. -/
def cexBank2 : Transaction :=
  { id := "cb2", date := 0, description := "x", amount := 1, type := TxType.debit }

/-- The single book transaction of the tie-break input, exactly equal in
amount, date and reference to both bank transactions. -/
def cexBook1 : Transaction :=
  { id := "ck1", date := 0, description := "x", amount := 1, type := TxType.debit }

/-- Bank side of the fuzzy-match input: day 0. -/
def fuzzyBank : Transaction :=
  { id := "fb", date := 0, description := "alpha", amount := 5, type := TxType.debit }

/-- Book side of the fuzzy-match input: one day later, same amount and
description, so the pair clears the default threshold with confidence 8/9
but is not an exact match. -/
def fuzzyBook : Transaction :=
  { id := "fk", date := 86400000, description := "alpha", amount := 5,
    type := TxType.credit }

/-- Reconciliation input holding the fuzzy-match pair, with no caller
settings. -/
def fuzzyData : ReconciliationData :=
  { account := acctSample, periodStart := 0, periodEnd := 86400000,
    bankTransactions := [fuzzyBank], bookTransactions := [fuzzyBook] }

/-! Invariant of the incumbent loop in phase 2: after the first n book
candidates have been examined, a none incumbent means every examined
candidate scored below the threshold, and a some incumbent is a
threshold-clearing candidate of maximal confidence among those examined,
at the least index attaining that confidence. -/

def BestInv (b : Transaction) (s : MergedSettings) (book : List Transaction)
    (n : Nat) : Option (Nat × Transaction × ℚ) → Prop
  | none =>
    ∀ i (hi : i < book.length), i < n →
      calculateMatchConfidence b (book.get ⟨i, hi⟩) s < s.fuzzyThreshold
  | some (j, k, c) =>
    ∃ hj : j < book.length, j < n ∧ book.get ⟨j, hj⟩ = k ∧
      c = calculateMatchConfidence b k s ∧ s.fuzzyThreshold ≤ c ∧
      (∀ i (hi : i < book.length), i < n →
        s.fuzzyThreshold ≤ calculateMatchConfidence b (book.get ⟨i, hi⟩) s →
        calculateMatchConfidence b (book.get ⟨i, hi⟩) s ≤ c) ∧
      (∀ i (hi : i < book.length), i < j →
        calculateMatchConfidence b (book.get ⟨i, hi⟩) s < c)

/-! Generic list lemmas used throughout. -/

theorem foldl_add_eq_sum {α : Type} (f : α → ℚ) (a : ℚ) (l : List α) :
    l.foldl (fun s x => s + f x) a = a + (l.map f).sum := by
  induction l generalizing a with
  | nil => simp
  | cons x tl ih => simp [ih, add_assoc]

theorem perm_get_cons_eraseIdx {α : Type} (l : List α) {j : Nat} (hj : j < l.length) :
    l.Perm (l.get ⟨j, hj⟩ :: l.eraseIdx j) := by
  induction l generalizing j with
  | nil => simp at hj
  | cons x tl ih =>
    cases j with
    | zero => simp [List.eraseIdx]
    | succ j =>
      have hj' : j < tl.length := by simpa using hj
      have step : (x :: tl).Perm (x :: (tl.get ⟨j, hj'⟩ :: tl.eraseIdx j)) :=
        (ih hj').cons x
      simpa [List.eraseIdx] using step.trans (List.Perm.swap _ _ _)

theorem mem_eraseIdx_of_ne {α : Type} {l : List α} {j : Nat} (hj : j < l.length)
    {a : α} (ha : a ∈ l) (hne : l.get ⟨j, hj⟩ ≠ a) : a ∈ l.eraseIdx j := by
  have h := (perm_get_cons_eraseIdx l hj).mem_iff.mp ha
  rcases List.mem_cons.mp h with h' | h'
  · exact absurd h'.symm hne
  · exact h'

/-! Specification of findExactIdx, the embedded findIndex of phase 1. -/

theorem findExactIdx_some_spec {b : Transaction} {l : List Transaction}
    {j : Nat} {k : Transaction} (h : findExactIdx b l = some (j, k)) :
    ∃ hj : j < l.length, l.get ⟨j, hj⟩ = k ∧ isExactMatch b k = true := by
  induction l generalizing j with
  | nil => simp [findExactIdx] at h
  | cons x tl ih =>
    rw [findExactIdx] at h
    by_cases hx : isExactMatch b x = true
    · rw [if_pos hx] at h
      obtain ⟨rfl, rfl⟩ : j = 0 ∧ x = k := by
        constructor <;> [skip; skip] <;> simp_all
      exact ⟨by simp, rfl, hx⟩
    · rw [if_neg hx] at h
      cases hrec : findExactIdx b tl with
      | none => rw [hrec] at h; cases h
      | some jk =>
        obtain ⟨j₀, k₀⟩ := jk
        rw [hrec] at h
        obtain ⟨rfl, rfl⟩ : j = j₀ + 1 ∧ k₀ = k := by
          constructor <;> simp_all
        obtain ⟨hj₀, hget, hmatch⟩ := ih hrec
        exact ⟨by simpa using Nat.succ_lt_succ hj₀, by simpa using hget, hmatch⟩

theorem findExactIdx_none_spec {b : Transaction} {l : List Transaction}
    (h : findExactIdx b l = none) : ∀ k ∈ l, ¬isExactMatch b k = true := by
  induction l with
  | nil => intro k hk; simp at hk
  | cons x tl ih =>
    rw [findExactIdx] at h
    by_cases hx : isExactMatch b x = true
    · rw [if_pos hx] at h; cases h
    · rw [if_neg hx] at h
      intro k hk
      rcases List.mem_cons.mp hk with rfl | hk'
      · exact hx
      · cases hrec : findExactIdx b tl with
        | none => exact ih hrec k hk'
        | some jk => rw [hrec] at h; cases h

theorem findExactIdx_mem_some {b k : Transaction} {l : List Transaction}
    (hk : k ∈ l) (hm : isExactMatch b k = true) :
    ∃ jk, findExactIdx b l = some jk := by
  cases h : findExactIdx b l with
  | none => exact absurd hm (findExactIdx_none_spec h k hk)
  | some jk => exact ⟨jk, rfl⟩

/-! Invariants of phase 1. -/

theorem findExactMatches_bank_sublist (bank book : List Transaction) :
    (findExactMatches bank book).1.Sublist bank := by
  induction bank with
  | nil => simp [findExactMatches]
  | cons b rest ih =>
    rw [findExactMatches]
    cases hfi : findExactIdx b (findExactMatches rest book).2.1 with
    | none => exact List.Sublist.cons₂ b ih
    | some jk => exact ih.trans (List.sublist_cons_self b rest)

theorem findExactMatches_book_sublist (bank book : List Transaction) :
    (findExactMatches bank book).2.1.Sublist book := by
  induction bank with
  | nil => simp [findExactMatches]
  | cons b rest ih =>
    rw [findExactMatches]
    cases hfi : findExactIdx b (findExactMatches rest book).2.1 with
    | none => exact ih
    | some jk =>
      obtain ⟨j, k⟩ := jk
      exact (List.eraseIdx_sublist _ j).trans ih

theorem findExactMatches_bank_perm (bank book : List Transaction) :
    ((findExactMatches bank book).2.2.map (fun m => m.bankTransaction) ++
      (findExactMatches bank book).1).Perm bank := by
  induction bank with
  | nil => simp [findExactMatches]
  | cons b rest ih =>
    rw [findExactMatches]
    cases hfi : findExactIdx b (findExactMatches rest book).2.1 with
    | none =>
      have hmid :
          ((findExactMatches rest book).2.2.map (fun m => m.bankTransaction) ++
              b :: (findExactMatches rest book).1).Perm
            (b :: ((findExactMatches rest book).2.2.map (fun m => m.bankTransaction) ++
              (findExactMatches rest book).1)) := List.perm_middle
      simpa using hmid.trans (ih.cons b)
    | some jk =>
      obtain ⟨j, k⟩ := jk
      have hmid :
          ((findExactMatches rest book).2.2.map (fun m => m.bankTransaction) ++
              b :: (findExactMatches rest book).1).Perm
            (b :: ((findExactMatches rest book).2.2.map (fun m => m.bankTransaction) ++
              (findExactMatches rest book).1)) := List.perm_middle
      simpa using hmid.trans (ih.cons b)

theorem findExactMatches_book_perm (bank book : List Transaction) :
    ((findExactMatches bank book).2.2.map (fun m => m.bookTransaction) ++
      (findExactMatches bank book).2.1).Perm book := by
  induction bank with
  | nil => simp [findExactMatches]
  | cons b rest ih =>
    rw [findExactMatches]
    cases hfi : findExactIdx b (findExactMatches rest book).2.1 with
    | none => exact ih
    | some jk =>
      obtain ⟨j, k⟩ := jk
      obtain ⟨hj, hget, hmatch⟩ := findExactIdx_some_spec hfi
      have hperm := (perm_get_cons_eraseIdx _ hj).symm
      rw [hget] at hperm
      have hstep := (hperm.append_left
        ((findExactMatches rest book).2.2.map (fun m => m.bookTransaction))).trans ih
      simpa using hstep

theorem findExactMatches_matched_spec (bank book : List Transaction) :
    ∀ m ∈ (findExactMatches bank book).2.2,
      m.confidence = 1 ∧ m.matchMethod = MatchMethod.exact := by
  induction bank with
  | nil => simp [findExactMatches]
  | cons b rest ih =>
    rw [findExactMatches]
    cases hfi : findExactIdx b (findExactMatches rest book).2.1 with
    | none => exact ih
    | some jk =>
      obtain ⟨j, k⟩ := jk
      intro m hm
      rcases List.mem_append.mp hm with hm' | hm'
      · exact ih m hm'
      · rcases List.mem_singleton.mp hm' with rfl
        exact ⟨rfl, rfl⟩

theorem fuzzyStep_of_below {s : MergedSettings} {j : Nat} {k : Transaction}
    {c : ℚ} {best : Option (Nat × Transaction × ℚ)}
    (h : ¬s.fuzzyThreshold ≤ c) : fuzzyStep s j k c best = best := by
  unfold fuzzyStep
  rw [if_neg h]

theorem fuzzyStep_none_of_le {s : MergedSettings} {j : Nat} {k : Transaction}
    {c : ℚ} (h : s.fuzzyThreshold ≤ c) :
    fuzzyStep s j k c none = some (j, k, c) := by
  unfold fuzzyStep
  rw [if_pos h]

theorem fuzzyStep_replace {s : MergedSettings} {j j₀ : Nat} {k k₀ : Transaction}
    {c c₀ : ℚ} (h : s.fuzzyThreshold ≤ c) (h₂ : c₀ < c) :
    fuzzyStep s j k c (some (j₀, k₀, c₀)) = some (j, k, c) := by
  unfold fuzzyStep
  rw [if_pos h]
  exact if_pos h₂

theorem fuzzyStep_keep {s : MergedSettings} {j j₀ : Nat} {k k₀ : Transaction}
    {c c₀ : ℚ} (h : s.fuzzyThreshold ≤ c) (h₂ : ¬c₀ < c) :
    fuzzyStep s j k c (some (j₀, k₀, c₀)) = some (j₀, k₀, c₀) := by
  unfold fuzzyStep
  rw [if_pos h]
  exact if_neg h₂

theorem BestInv_step {b : Transaction} {s : MergedSettings}
    {book : List Transaction} {n : Nat} {acc : Option (Nat × Transaction × ℚ)}
    (hn : n < book.length) (k : Transaction) (hk : book.get ⟨n, hn⟩ = k)
    (hinv : BestInv b s book n acc) :
    BestInv b s book (n + 1)
      (fuzzyStep s n k (calculateMatchConfidence b k s) acc) := by
  by_cases hθ : s.fuzzyThreshold ≤ calculateMatchConfidence b k s
  · cases acc with
    | none =>
      rw [fuzzyStep_none_of_le hθ]
      refine ⟨hn, Nat.lt_succ_self n, hk, rfl, hθ, ?_, ?_⟩
      · intro i hi hin hθi
        rcases Nat.lt_succ_iff_lt_or_eq.mp hin with hlt | heq
        · exact absurd hθi (not_le.mpr (hinv i hi hlt))
        · subst heq
          have hik : book.get ⟨i, hi⟩ = k := hk
          rw [hik]
      · intro i hi hij
        exact lt_of_lt_of_le (hinv i hi hij) hθ
    | some t =>
      obtain ⟨j₀, k₀, c₀⟩ := t
      obtain ⟨hj₀, hj₀n, hget₀, hc₀, hθ₀, hmax₀, htie₀⟩ := hinv
      by_cases hcc : c₀ < calculateMatchConfidence b k s
      · rw [fuzzyStep_replace hθ hcc]
        refine ⟨hn, Nat.lt_succ_self n, hk, rfl, hθ, ?_, ?_⟩
        · intro i hi hin hθi
          rcases Nat.lt_succ_iff_lt_or_eq.mp hin with hlt | heq
          · exact (hmax₀ i hi hlt hθi).trans hcc.le
          · subst heq
            have hik : book.get ⟨i, hi⟩ = k := hk
            rw [hik]
        · intro i hi hijn
          by_cases hθi : s.fuzzyThreshold ≤ calculateMatchConfidence b (book.get ⟨i, hi⟩) s
          · exact lt_of_le_of_lt (hmax₀ i hi hijn hθi) hcc
          · exact lt_of_lt_of_le (not_le.mp hθi) hθ
      · rw [fuzzyStep_keep hθ hcc]
        refine ⟨hj₀, hj₀n.trans (Nat.lt_succ_self n), hget₀, hc₀, hθ₀, ?_, htie₀⟩
        intro i hi hin hθi
        rcases Nat.lt_succ_iff_lt_or_eq.mp hin with hlt | heq
        · exact hmax₀ i hi hlt hθi
        · subst heq
          have hik : book.get ⟨i, hi⟩ = k := hk
          rw [hik]
          exact not_lt.mp hcc
  · rw [fuzzyStep_of_below hθ]
    cases acc with
    | none =>
      intro i hi hin
      rcases Nat.lt_succ_iff_lt_or_eq.mp hin with hlt | heq
      · exact hinv i hi hlt
      · subst heq
        have hik : book.get ⟨i, hi⟩ = k := hk
        rw [hik]
        exact not_le.mp hθ
    | some t =>
      obtain ⟨j₀, k₀, c₀⟩ := t
      obtain ⟨hj₀, hj₀n, hget₀, hc₀, hθ₀, hmax₀, htie₀⟩ := hinv
      refine ⟨hj₀, hj₀n.trans (Nat.lt_succ_self n), hget₀, hc₀, hθ₀, ?_, htie₀⟩
      intro i hi hin hθi
      rcases Nat.lt_succ_iff_lt_or_eq.mp hin with hlt | heq
      · exact hmax₀ i hi hlt hθi
      · subst heq
        have hik : book.get ⟨i, hi⟩ = k := hk
        rw [hik] at hθi
        exact absurd hθi hθ

theorem findBestFuzzy_inv (b : Transaction) (s : MergedSettings)
    (book : List Transaction) :
    ∀ (l : List Transaction) (n : Nat) (acc : Option (Nat × Transaction × ℚ)),
      l = book.drop n → BestInv b s book n acc →
      BestInv b s book book.length (findBestFuzzy b s l n acc) := by
  intro l
  induction l with
  | nil =>
    intro n acc hdrop hinv
    rw [findBestFuzzy]
    cases acc with
    | none =>
      simp only [BestInv] at hinv ⊢
      intro i hi hin
      have hlen : book.length ≤ n := by
        have h := congrArg List.length hdrop
        simp [List.length_drop] at h
        omega
      exact hinv i hi (lt_of_lt_of_le hi hlen)
    | some t =>
      obtain ⟨j₀, k₀, c₀⟩ := t
      simp only [BestInv] at hinv ⊢
      obtain ⟨hj₀, hj₀n, hget₀, hc₀, hθ₀, hmax₀, htie₀⟩ := hinv
      have hlen : book.length ≤ n := by
        have h := congrArg List.length hdrop
        simp [List.length_drop] at h
        omega
      refine ⟨hj₀, hj₀, hget₀, hc₀, hθ₀, ?_, htie₀⟩
      intro i hi _ hθi
      exact hmax₀ i hi (lt_of_lt_of_le hi hlen) hθi
  | cons k tl ih =>
    intro n acc hdrop hinv
    have hn : n < book.length := by
      by_contra hcon
      push_neg at hcon
      rw [List.drop_eq_nil_of_le hcon] at hdrop
      cases hdrop
    have hdecomp := List.drop_eq_getElem_cons hn
    rw [hdecomp] at hdrop
    injection hdrop with h1 h2
    rw [findBestFuzzy]
    have hk : book.get ⟨n, hn⟩ = k := by
      rw [List.get_eq_getElem]
      exact h1.symm
    exact ih (n + 1) _ h2 (BestInv_step hn k hk hinv)

theorem bestFuzzy_some_spec {b : Transaction} {s : MergedSettings}
    {book : List Transaction} {j : Nat} {k : Transaction} {c : ℚ}
    (h : bestFuzzy b book s = some (j, k, c)) :
    ∃ hj : j < book.length, book.get ⟨j, hj⟩ = k ∧
      c = calculateMatchConfidence b k s ∧ s.fuzzyThreshold ≤ c ∧
      (∀ i (hi : i < book.length),
        s.fuzzyThreshold ≤ calculateMatchConfidence b (book.get ⟨i, hi⟩) s →
        calculateMatchConfidence b (book.get ⟨i, hi⟩) s ≤ c) ∧
      (∀ i (hi : i < book.length), i < j →
        calculateMatchConfidence b (book.get ⟨i, hi⟩) s < c) := by
  have hinv := findBestFuzzy_inv b s book book 0 none (by simp)
    (by simp only [BestInv]; intro i hi hin; exact absurd hin (Nat.not_lt_zero i))
  unfold bestFuzzy at h
  rw [h] at hinv
  simp only [BestInv] at hinv
  obtain ⟨hj, _, hget, hc, hθ, hmax, htie⟩ := hinv
  exact ⟨hj, hget, hc, hθ, fun i hi hθi => hmax i hi hi hθi, htie⟩

theorem bestFuzzy_none_spec {b : Transaction} {s : MergedSettings}
    {book : List Transaction} (h : bestFuzzy b book s = none) :
    ∀ k ∈ book, calculateMatchConfidence b k s < s.fuzzyThreshold := by
  have hinv := findBestFuzzy_inv b s book book 0 none (by simp)
    (by simp only [BestInv]; intro i hi hin; exact absurd hin (Nat.not_lt_zero i))
  unfold bestFuzzy at h
  rw [h] at hinv
  simp only [BestInv] at hinv
  intro k hk
  obtain ⟨i, rfl⟩ := List.mem_iff_get.mp hk
  exact hinv i.1 i.2 i.2

/-! Invariants of phase 2. -/

theorem findFuzzyMatches_bank_sublist (bank book : List Transaction)
    (s : MergedSettings) : (findFuzzyMatches bank book s).1.Sublist bank := by
  induction bank with
  | nil => simp [findFuzzyMatches]
  | cons b rest ih =>
    rw [findFuzzyMatches]
    cases hbf : bestFuzzy b (findFuzzyMatches rest book s).2.1 s with
    | none => exact List.Sublist.cons₂ b ih
    | some t =>
      obtain ⟨j, k, c⟩ := t
      exact ih.trans (List.sublist_cons_self b rest)

theorem findFuzzyMatches_book_sublist (bank book : List Transaction)
    (s : MergedSettings) : (findFuzzyMatches bank book s).2.1.Sublist book := by
  induction bank with
  | nil => simp [findFuzzyMatches]
  | cons b rest ih =>
    rw [findFuzzyMatches]
    cases hbf : bestFuzzy b (findFuzzyMatches rest book s).2.1 s with
    | none => exact ih
    | some t =>
      obtain ⟨j, k, c⟩ := t
      exact (List.eraseIdx_sublist _ j).trans ih

theorem findFuzzyMatches_bank_perm (bank book : List Transaction)
    (s : MergedSettings) :
    ((findFuzzyMatches bank book s).2.2.map (fun m => m.bankTransaction) ++
      (findFuzzyMatches bank book s).1).Perm bank := by
  induction bank with
  | nil => simp [findFuzzyMatches]
  | cons b rest ih =>
    rw [findFuzzyMatches]
    cases hbf : bestFuzzy b (findFuzzyMatches rest book s).2.1 s with
    | none =>
      have hmid :
          ((findFuzzyMatches rest book s).2.2.map (fun m => m.bankTransaction) ++
              b :: (findFuzzyMatches rest book s).1).Perm
            (b :: ((findFuzzyMatches rest book s).2.2.map (fun m => m.bankTransaction) ++
              (findFuzzyMatches rest book s).1)) := List.perm_middle
      simpa using hmid.trans (ih.cons b)
    | some t =>
      obtain ⟨j, k, c⟩ := t
      have hmid :
          ((findFuzzyMatches rest book s).2.2.map (fun m => m.bankTransaction) ++
              b :: (findFuzzyMatches rest book s).1).Perm
            (b :: ((findFuzzyMatches rest book s).2.2.map (fun m => m.bankTransaction) ++
              (findFuzzyMatches rest book s).1)) := List.perm_middle
      simpa using hmid.trans (ih.cons b)

theorem findFuzzyMatches_book_perm (bank book : List Transaction)
    (s : MergedSettings) :
    ((findFuzzyMatches bank book s).2.2.map (fun m => m.bookTransaction) ++
      (findFuzzyMatches bank book s).2.1).Perm book := by
  induction bank with
  | nil => simp [findFuzzyMatches]
  | cons b rest ih =>
    rw [findFuzzyMatches]
    cases hbf : bestFuzzy b (findFuzzyMatches rest book s).2.1 s with
    | none => exact ih
    | some t =>
      obtain ⟨j, k, c⟩ := t
      obtain ⟨hj, hget, hc, hθ, hmax, htie⟩ := bestFuzzy_some_spec hbf
      have hperm := (perm_get_cons_eraseIdx _ hj).symm
      rw [hget] at hperm
      have hstep := (hperm.append_left
        ((findFuzzyMatches rest book s).2.2.map (fun m => m.bookTransaction))).trans ih
      simpa using hstep

theorem findFuzzyMatches_matched_spec (bank book : List Transaction)
    (s : MergedSettings) :
    ∀ m ∈ (findFuzzyMatches bank book s).2.2,
      m.matchMethod = MatchMethod.fuzzy ∧
      m.confidence = calculateMatchConfidence m.bankTransaction m.bookTransaction s ∧
      s.fuzzyThreshold ≤ m.confidence := by
  induction bank with
  | nil => simp [findFuzzyMatches]
  | cons b rest ih =>
    rw [findFuzzyMatches]
    cases hbf : bestFuzzy b (findFuzzyMatches rest book s).2.1 s with
    | none => exact ih
    | some t =>
      obtain ⟨j, k, c⟩ := t
      intro m hm
      rcases List.mem_append.mp hm with hm₀ | hm₀
      · exact ih m hm₀
      · rcases List.mem_singleton.mp hm₀ with rfl
        obtain ⟨hj, hget, hc, hθ, hmax, htie⟩ := bestFuzzy_some_spec hbf
        exact ⟨rfl, hc, hθ⟩

/-! Bounds of the similarity scorer and the confidence model. -/

theorem tokenScore_nonneg (a b : String) : 0 ≤ tokenScore a b := by
  unfold tokenScore
  exact le_min (by norm_num) (div_nonneg (Nat.cast_nonneg _) (Nat.cast_nonneg _))

theorem tokenScore_le_one (a b : String) : tokenScore a b ≤ 1 := by
  unfold tokenScore
  exact min_le_left _ _

theorem calculateStringSimilarity_nonneg (a b : String) :
    0 ≤ calculateStringSimilarity a b := by
  unfold calculateStringSimilarity
  split_ifs
  · norm_num
  · norm_num
  · exact tokenScore_nonneg a b

theorem calculateStringSimilarity_le_one (a b : String) :
    calculateStringSimilarity a b ≤ 1 := by
  unfold calculateStringSimilarity
  split_ifs
  · norm_num
  · norm_num
  · exact tokenScore_le_one a b

theorem amountFactor_bounds (b k : Transaction) (s : MergedSettings) :
    0 ≤ (amountFactor b k s).1 ∧ (amountFactor b k s).1 ≤ (amountFactor b k s).2 := by
  unfold amountFactor
  split_ifs <;> simp <;> norm_num

theorem daysDiff_nonneg (b k : Transaction) : 0 ≤ daysDiff b k := by
  unfold daysDiff
  exact div_nonneg (by exact_mod_cast abs_nonneg _) (by norm_num)

theorem dateFactor_bounds (b k : Transaction) (s : MergedSettings) :
    0 ≤ (dateFactor b k s).1 ∧ (dateFactor b k s).1 ≤ (dateFactor b k s).2 := by
  unfold dateFactor
  split_ifs with h1 h2
  · have hd := daysDiff_nonneg b k
    rcases lt_or_le 0 s.dateTolerance with hpos | hnonpos
    · have hq1 : daysDiff b k / s.dateTolerance ≤ 1 := (div_le_one hpos).mpr h2
      have hq2 : 0 ≤ daysDiff b k / s.dateTolerance := div_nonneg hd hpos.le
      constructor <;> [nlinarith; nlinarith]
    · have hzero : daysDiff b k = 0 := le_antisymm (h2.trans hnonpos) hd
      rw [hzero, zero_div]
      norm_num
  · constructor <;> norm_num
  · constructor <;> norm_num

theorem descFactor_bounds (b k : Transaction) (s : MergedSettings) :
    0 ≤ (descFactor b k s).1 ∧ (descFactor b k s).1 ≤ (descFactor b k s).2 := by
  unfold descFactor
  split_ifs with h
  · constructor
    · exact mul_nonneg (by norm_num) (calculateStringSimilarity_nonneg _ _)
    · have := calculateStringSimilarity_le_one (jsToLower b.description)
        (jsToLower k.description)
      nlinarith
  · simp

theorem refFactor_bounds (b k : Transaction) (s : MergedSettings) :
    0 ≤ (refFactor b k s).1 ∧ (refFactor b k s).1 ≤ (refFactor b k s).2 := by
  unfold refFactor
  cases hbr : b.reference with
  | none => simp
  | some r1 =>
    cases hkr : k.reference with
    | none => simp
    | some r2 =>
      dsimp only
      split_ifs with h
      · constructor
        · exact mul_nonneg (by norm_num) (calculateStringSimilarity_nonneg _ _)
        · have := calculateStringSimilarity_le_one (jsToLower r1) (jsToLower r2)
          nlinarith
      · simp

theorem calculateMatchConfidence_le_one (b k : Transaction) (s : MergedSettings) :
    calculateMatchConfidence b k s ≤ 1 := by
  unfold calculateMatchConfidence
  dsimp only
  obtain ⟨ha0, haw⟩ := amountFactor_bounds b k s
  obtain ⟨hd0, hdw⟩ := dateFactor_bounds b k s
  obtain ⟨he0, hew⟩ := descFactor_bounds b k s
  obtain ⟨hr0, hrw⟩ := refFactor_bounds b k s
  split_ifs with h
  · rw [div_le_one h]
    linarith
  · norm_num

theorem calculateMatchConfidence_nonneg (b k : Transaction) (s : MergedSettings) :
    0 ≤ calculateMatchConfidence b k s := by
  unfold calculateMatchConfidence
  dsimp only
  obtain ⟨ha0, haw⟩ := amountFactor_bounds b k s
  obtain ⟨hd0, hdw⟩ := dateFactor_bounds b k s
  obtain ⟨he0, hew⟩ := descFactor_bounds b k s
  obtain ⟨hr0, hrw⟩ := refFactor_bounds b k s
  split_ifs with h
  · exact div_nonneg (by linarith) h.le
  · exact le_refl 0

/-! Assembly of the two phases inside matchTransactions. -/

theorem perm_compose {ms1 ms2 : List MatchedTransaction}
    {mid final orig : List Transaction} (f : MatchedTransaction → Transaction)
    (h2 : (ms2.map f ++ final).Perm mid) (h1 : (ms1.map f ++ mid).Perm orig) :
    ((ms1 ++ ms2).map f ++ final).Perm orig := by
  rw [List.map_append, List.append_assoc]
  exact (h2.append_left (ms1.map f)).trans h1

theorem matchTransactions_bank_perm (bank book : List Transaction)
    (s : MergedSettings) :
    ((matchTransactions bank book s).matched.map (fun m => m.bankTransaction) ++
      (matchTransactions bank book s).unmatchedBank).Perm bank := by
  unfold matchTransactions
  dsimp only
  by_cases hA : s.autoMatchExact = true <;> by_cases hF : s.fuzzyMatching = true <;>
    simp only [hA, hF, if_true, if_false]
  · exact perm_compose _ (findFuzzyMatches_bank_perm _ _ s)
      (findExactMatches_bank_perm bank book)
  · simpa using findExactMatches_bank_perm bank book
  · simpa using findFuzzyMatches_bank_perm bank book s
  · simp

theorem matchTransactions_book_perm (bank book : List Transaction)
    (s : MergedSettings) :
    ((matchTransactions bank book s).matched.map (fun m => m.bookTransaction) ++
      (matchTransactions bank book s).unmatchedBook).Perm book := by
  unfold matchTransactions
  dsimp only
  by_cases hA : s.autoMatchExact = true <;> by_cases hF : s.fuzzyMatching = true <;>
    simp only [hA, hF, if_true, if_false]
  · exact perm_compose _ (findFuzzyMatches_book_perm _ _ s)
      (findExactMatches_book_perm bank book)
  · simpa using findExactMatches_book_perm bank book
  · simpa using findFuzzyMatches_book_perm bank book s
  · simp

theorem matchTransactions_unmatchedBank_sublist (bank book : List Transaction)
    (s : MergedSettings) :
    (matchTransactions bank book s).unmatchedBank.Sublist bank := by
  unfold matchTransactions
  dsimp only
  by_cases hA : s.autoMatchExact = true <;> by_cases hF : s.fuzzyMatching = true <;>
    simp only [hA, hF, if_true, if_false]
  · exact (findFuzzyMatches_bank_sublist _ _ s).trans
      (findExactMatches_bank_sublist bank book)
  · exact findExactMatches_bank_sublist bank book
  · exact findFuzzyMatches_bank_sublist bank book s
  · exact List.Sublist.refl bank

theorem matchTransactions_unmatchedBook_sublist (bank book : List Transaction)
    (s : MergedSettings) :
    (matchTransactions bank book s).unmatchedBook.Sublist book := by
  unfold matchTransactions
  dsimp only
  by_cases hA : s.autoMatchExact = true <;> by_cases hF : s.fuzzyMatching = true <;>
    simp only [hA, hF, if_true, if_false]
  · exact (findFuzzyMatches_book_sublist _ _ s).trans
      (findExactMatches_book_sublist bank book)
  · exact findExactMatches_book_sublist bank book
  · exact findFuzzyMatches_book_sublist bank book s
  · exact List.Sublist.refl book

theorem matchTransactions_matched_spec (bank book : List Transaction)
    (s : MergedSettings) :
    ∀ m ∈ (matchTransactions bank book s).matched,
      (m.confidence = 1 ∧ m.matchMethod = MatchMethod.exact) ∨
      (m.matchMethod = MatchMethod.fuzzy ∧
        m.confidence = calculateMatchConfidence m.bankTransaction m.bookTransaction s ∧
        s.fuzzyThreshold ≤ m.confidence) := by
  unfold matchTransactions
  dsimp only
  by_cases hA : s.autoMatchExact = true <;> by_cases hF : s.fuzzyMatching = true <;>
    simp only [hA, hF, if_true, if_false] <;> intro m hm
  · rcases List.mem_append.mp hm with h | h
    · exact Or.inl (findExactMatches_matched_spec bank book m h)
    · exact Or.inr (findFuzzyMatches_matched_spec _ _ s m h)
  · rcases List.mem_append.mp hm with h | h
    · exact Or.inl (findExactMatches_matched_spec bank book m h)
    · simp at h
  · rcases List.mem_append.mp hm with h | h
    · simp at h
    · exact Or.inr (findFuzzyMatches_matched_spec bank book s m h)
  · simp at hm

/-! Concrete evaluations used by the scenario theorems and witnesses. -/

theorem sim_officeSupplies :
    calculateStringSimilarity "office supplies" "office supplies purchase" = 8/10 := by
  unfold calculateStringSimilarity
  rw [if_neg (by decide), if_pos (by decide)]

theorem sim_alpha : calculateStringSimilarity "alpha" "alpha" = 1 := by
  unfold calculateStringSimilarity
  rw [if_pos rfl]

theorem conf_b1_k1 :
    calculateMatchConfidence b1 k1 defaultSettings =
      (4/10 + 0 + (2/10) * (8/10)) / (9/10) := by
  have ha : amountFactor b1 k1 defaultSettings = (4/10, 4/10) := by
    unfold amountFactor
    rw [if_pos (show defaultSettings.matchByAmount = true from rfl),
      if_pos (show b1.amount = k1.amount from by decide)]
  have hdd : daysDiff b1 k1 = 3 := by
    unfold daysDiff
    rw [show (|b1.date - k1.date| : ℤ) = 259200000 from by decide]
    norm_num
  have hd : dateFactor b1 k1 defaultSettings = (0, 3/10) := by
    unfold dateFactor
    rw [if_pos (show defaultSettings.matchByDate = true from rfl), hdd,
      if_pos (show (3 : ℚ) ≤ defaultSettings.dateTolerance from by norm_num [defaultSettings])]
    norm_num [defaultSettings]
  have he : descFactor b1 k1 defaultSettings = ((2/10) * (8/10), 2/10) := by
    unfold descFactor
    rw [if_pos ⟨show defaultSettings.matchByDescription = true from rfl,
      by decide, by decide⟩]
    rw [show jsToLower b1.description = "office supplies" from by decide,
      show jsToLower k1.description = "office supplies purchase" from by decide,
      sim_officeSupplies]
  have hr : refFactor b1 k1 defaultSettings = (0, 0) := rfl
  unfold calculateMatchConfidence
  dsimp only
  rw [ha, hd, he, hr]
  norm_num

theorem conf_b1_k1_below :
    calculateMatchConfidence b1 k1 defaultSettings < defaultSettings.fuzzyThreshold := by
  rw [conf_b1_k1]
  norm_num [defaultSettings]

theorem exact_b1_k1 : findExactMatches [b1] [k1] = ([b1], [k1], []) := by
  simp [findExactMatches, findExactIdx,
    show isExactMatch b1 k1 = false from by decide]

theorem bestFuzzy_b1_k1 : bestFuzzy b1 [k1] defaultSettings = none := by
  have hnot : ¬defaultSettings.fuzzyThreshold ≤
      calculateMatchConfidence b1 k1 defaultSettings :=
    not_le.mpr conf_b1_k1_below
  unfold bestFuzzy
  rw [findBestFuzzy, fuzzyStep_of_below hnot, findBestFuzzy]

theorem fuzzy_b1_k1 : findFuzzyMatches [b1] [k1] defaultSettings = ([b1], [k1], []) := by
  simp [findFuzzyMatches, bestFuzzy_b1_k1]

theorem match_b1_k1 :
    matchTransactions [b1] [k1] defaultSettings =
      { matched := [], unmatchedBank := [b1], unmatchedBook := [k1] } := by
  simp [matchTransactions, show defaultSettings.autoMatchExact = true from rfl,
    show defaultSettings.fuzzyMatching = true from rfl, exact_b1_k1, fuzzy_b1_k1]

theorem exact_cex_eval :
    findExactMatches [cexBank1, cexBank2] [cexBook1] =
      ([cexBank1], [], [⟨cexBank2, cexBook1, 1, MatchMethod.exact⟩]) := by
  simp [findExactMatches, findExactIdx,
    show isExactMatch cexBank2 cexBook1 = true from by decide, List.eraseIdx]

theorem match_cex_eval :
    matchTransactions [cexBank1, cexBank2] [cexBook1] defaultSettings =
      { matched := [⟨cexBank2, cexBook1, 1, MatchMethod.exact⟩],
        unmatchedBank := [cexBank1], unmatchedBook := [] } := by
  have hfz : findFuzzyMatches [cexBank1] [] defaultSettings = ([cexBank1], [], []) := by
    simp [findFuzzyMatches, bestFuzzy, findBestFuzzy]
  simp [matchTransactions, show defaultSettings.autoMatchExact = true from rfl,
    show defaultSettings.fuzzyMatching = true from rfl, exact_cex_eval, hfz]

theorem conf_fuzzy_pair :
    calculateMatchConfidence fuzzyBank fuzzyBook defaultSettings = 8/9 := by
  have ha : amountFactor fuzzyBank fuzzyBook defaultSettings = (4/10, 4/10) := by
    unfold amountFactor
    rw [if_pos (show defaultSettings.matchByAmount = true from rfl),
      if_pos (show fuzzyBank.amount = fuzzyBook.amount from by decide)]
  have hdd : daysDiff fuzzyBank fuzzyBook = 1 := by
    unfold daysDiff
    rw [show (|fuzzyBank.date - fuzzyBook.date| : ℤ) = 86400000 from by decide]
    norm_num
  have hd : dateFactor fuzzyBank fuzzyBook defaultSettings = (1/5, 3/10) := by
    unfold dateFactor
    rw [if_pos (show defaultSettings.matchByDate = true from rfl), hdd,
      if_pos (show (1 : ℚ) ≤ defaultSettings.dateTolerance from by norm_num [defaultSettings])]
    norm_num [defaultSettings]
  have he : descFactor fuzzyBank fuzzyBook defaultSettings = (1/5, 2/10) := by
    unfold descFactor
    rw [if_pos ⟨show defaultSettings.matchByDescription = true from rfl,
      by decide, by decide⟩]
    rw [show jsToLower fuzzyBank.description = "alpha" from by decide,
      show jsToLower fuzzyBook.description = "alpha" from by decide, sim_alpha]
    norm_num
  have hr : refFactor fuzzyBank fuzzyBook defaultSettings = (0, 0) := rfl
  unfold calculateMatchConfidence
  dsimp only
  rw [ha, hd, he, hr]
  norm_num

theorem bestFuzzy_fuzzy_pair :
    bestFuzzy fuzzyBank [fuzzyBook] defaultSettings = some (0, fuzzyBook, 8/9) := by
  have hle : defaultSettings.fuzzyThreshold ≤
      calculateMatchConfidence fuzzyBank fuzzyBook defaultSettings := by
    rw [conf_fuzzy_pair]
    norm_num [defaultSettings]
  unfold bestFuzzy
  rw [findBestFuzzy, fuzzyStep_none_of_le hle, findBestFuzzy, conf_fuzzy_pair]

theorem exact_fuzzy_pair :
    findExactMatches [fuzzyBank] [fuzzyBook] = ([fuzzyBank], [fuzzyBook], []) := by
  simp [findExactMatches, findExactIdx,
    show isExactMatch fuzzyBank fuzzyBook = false from by decide]

theorem fuzzy_fuzzy_pair :
    findFuzzyMatches [fuzzyBank] [fuzzyBook] defaultSettings =
      ([], [], [⟨fuzzyBank, fuzzyBook, 8/9, MatchMethod.fuzzy⟩]) := by
  simp [findFuzzyMatches, bestFuzzy_fuzzy_pair, List.eraseIdx]

theorem match_fuzzy_pair :
    matchTransactions [fuzzyBank] [fuzzyBook] defaultSettings =
      { matched := [⟨fuzzyBank, fuzzyBook, 8/9, MatchMethod.fuzzy⟩],
        unmatchedBank := [], unmatchedBook := [] } := by
  simp [matchTransactions, show defaultSettings.autoMatchExact = true from rfl,
    show defaultSettings.fuzzyMatching = true from rfl, exact_fuzzy_pair, fuzzy_fuzzy_pair]

theorem fuzzyData_matched :
    (processReconciliation fuzzyData).matched =
      [⟨fuzzyBank, fuzzyBook, 8/9, MatchMethod.fuzzy⟩] := by
  have hset : mergeSettings fuzzyData.settings = defaultSettings := rfl
  have hbank : fuzzyData.bankTransactions = [fuzzyBank] := rfl
  have hbook : fuzzyData.bookTransactions = [fuzzyBook] := rfl
  simp [processReconciliation, hset, hbank, hbook, match_fuzzy_pair]

/-! Claim theorems. -/

/-- C1: for every pair of input lists and every settings value, the output
of matchTransactions partitions the inputs: counting multiplicity, the
bank sides of the matched pairs together with the unmatched bank list form
a permutation of the input bank list, and symmetrically on the book side,
so each input transaction is accounted for exactly once and none appears
in two matched pairs or in both a matched pair and an unmatched list. -/
theorem matchTransactions_partition (bank book : List Transaction)
    (s : MergedSettings) :
    ((matchTransactions bank book s).matched.map (fun m => m.bankTransaction) ++
      (matchTransactions bank book s).unmatchedBank).Perm bank ∧
    ((matchTransactions bank book s).matched.map (fun m => m.bookTransaction) ++
      (matchTransactions bank book s).unmatchedBook).Perm book :=
  ⟨matchTransactions_bank_perm bank book s, matchTransactions_book_perm bank book s⟩

/-- C2: every matched pair of method fuzzy produced by processReconciliation
has confidence at least the effective fuzzy threshold obtained by merging
the caller settings over the defaults, and at most 1. -/
theorem processReconciliation_fuzzy_threshold (data : ReconciliationData)
    (m : MatchedTransaction) (hm : m ∈ (processReconciliation data).matched)
    (hf : m.matchMethod = MatchMethod.fuzzy) :
    (mergeSettings data.settings).fuzzyThreshold ≤ m.confidence ∧
      m.confidence ≤ 1 := by
  have hm' : m ∈ (matchTransactions data.bankTransactions data.bookTransactions
      (mergeSettings data.settings)).matched := by
    simpa [processReconciliation] using hm
  rcases matchTransactions_matched_spec _ _ _ m hm' with ⟨hc, hmeth⟩ | ⟨_, hc, hθ⟩
  · rw [hmeth] at hf
    cases hf
  · refine ⟨hθ, ?_⟩
    rw [hc]
    exact calculateMatchConfidence_le_one _ _ _

/-- C4: one step of phase 2.  The bank list is traversed from the highest
index toward index 0, so the head is processed last, against the book list
left over after the whole tail was processed; when the incumbent scan over
that remaining book list returns a candidate, the step removes exactly that
candidate and appends the fuzzy pair, and the candidate attains the
maximal confidence among remaining candidates clearing the threshold,
every lower index having strictly smaller confidence. -/
theorem findFuzzyMatches_greedy_selection (b : Transaction)
    (rest book : List Transaction) (s : MergedSettings)
    (j : Nat) (k : Transaction) (c : ℚ)
    (h : bestFuzzy b (findFuzzyMatches rest book s).2.1 s = some (j, k, c)) :
    findFuzzyMatches (b :: rest) book s =
      ((findFuzzyMatches rest book s).1,
        (findFuzzyMatches rest book s).2.1.eraseIdx j,
        (findFuzzyMatches rest book s).2.2 ++ [⟨b, k, c, MatchMethod.fuzzy⟩]) ∧
    ∃ hj : j < (findFuzzyMatches rest book s).2.1.length,
      (findFuzzyMatches rest book s).2.1.get ⟨j, hj⟩ = k ∧
      c = calculateMatchConfidence b k s ∧
      s.fuzzyThreshold ≤ c ∧
      (∀ i (hi : i < (findFuzzyMatches rest book s).2.1.length),
        s.fuzzyThreshold ≤
          calculateMatchConfidence b ((findFuzzyMatches rest book s).2.1.get ⟨i, hi⟩) s →
        calculateMatchConfidence b ((findFuzzyMatches rest book s).2.1.get ⟨i, hi⟩) s ≤ c) ∧
      (∀ i (hi : i < (findFuzzyMatches rest book s).2.1.length), i < j →
        calculateMatchConfidence b ((findFuzzyMatches rest book s).2.1.get ⟨i, hi⟩) s < c) := by
  constructor
  · rw [findFuzzyMatches]
    rw [h]
  · obtain ⟨hj, hget, hc, hθ, hmax, htie⟩ := bestFuzzy_some_spec h
    exact ⟨hj, hget, hc, hθ, hmax, htie⟩

/-- C8: the orchestrator returns structures built from the very transaction
values supplied in the input lists: every matched pair pairs a member of
the input bank list with a member of the input book list, and the
unmatched lists consist of members of the respective input lists.  In this
embedding the inputs are values, so they are unchanged by construction;
this theorem states the sharing of originals (the matcher never rebuilds
or modifies a transaction, in particular the matched and matchId fields
are left exactly as supplied). -/
theorem processReconciliation_preserves_inputs (data : ReconciliationData) :
    (∀ m ∈ (processReconciliation data).matched,
      m.bankTransaction ∈ data.bankTransactions ∧
      m.bookTransaction ∈ data.bookTransactions) ∧
    (∀ tx ∈ (processReconciliation data).unmatchedBank,
      tx ∈ data.bankTransactions) ∧
    (∀ tx ∈ (processReconciliation data).unmatchedBook,
      tx ∈ data.bookTransactions) := by
  set s := mergeSettings data.settings with hs
  have hmatched : (processReconciliation data).matched =
      (matchTransactions data.bankTransactions data.bookTransactions s).matched := by
    simp [processReconciliation]
  have hub : (processReconciliation data).unmatchedBank =
      (matchTransactions data.bankTransactions data.bookTransactions s).unmatchedBank := by
    simp [processReconciliation]
  have huk : (processReconciliation data).unmatchedBook =
      (matchTransactions data.bankTransactions data.bookTransactions s).unmatchedBook := by
    simp [processReconciliation]
  refine ⟨?_, ?_, ?_⟩
  · intro m hm
    rw [hmatched] at hm
    constructor
    · exact (matchTransactions_bank_perm data.bankTransactions data.bookTransactions s).mem_iff.mp
        (List.mem_append.mpr (Or.inl (List.mem_map_of_mem _ hm)))
    · exact (matchTransactions_book_perm data.bankTransactions data.bookTransactions s).mem_iff.mp
        (List.mem_append.mpr (Or.inl (List.mem_map_of_mem _ hm)))
  · intro tx htx
    rw [hub] at htx
    exact (matchTransactions_unmatchedBank_sublist data.bankTransactions
      data.bookTransactions s).subset htx
  · intro tx htx
    rw [huk] at htx
    exact (matchTransactions_unmatchedBook_sublist data.bankTransactions
      data.bookTransactions s).subset htx

/-- C10: the unmatched bank output of matchTransactions is a subsequence of
the input bank list, the surviving transactions keeping their original
relative order, and likewise for the unmatched book output. -/
theorem matchTransactions_unmatched_sublist (bank book : List Transaction)
    (s : MergedSettings) :
    (matchTransactions bank book s).unmatchedBank.Sublist bank ∧
    (matchTransactions bank book s).unmatchedBook.Sublist book :=
  ⟨matchTransactions_unmatchedBank_sublist bank book s,
    matchTransactions_unmatchedBook_sublist bank book s⟩

theorem listContains_nil (hay : List Char) : listContains hay [] = true := by
  cases hay <;> simp [listContains, listStartsWith]

theorem jsIncludes_empty_right (t : String) : jsIncludes t "" = true := by
  unfold jsIncludes
  rw [show ("" : String).data = [] from rfl]
  exact listContains_nil _

/-- C6: the Office Supplies scenario with default settings: the computed
confidence is exactly (0.4 + 0 + 0.2 times 0.8) / 0.9, which is below the
default threshold, so the matcher leaves both transactions unmatched and
produces no matched pair. -/
theorem officeSupplies_scenario :
    calculateMatchConfidence b1 k1 defaultSettings =
      (4/10 + 0 + (2/10) * (8/10)) / (9/10) ∧
    calculateMatchConfidence b1 k1 defaultSettings < defaultSettings.fuzzyThreshold ∧
    matchTransactions [b1] [k1] defaultSettings =
      { matched := [], unmatchedBank := [b1], unmatchedBook := [k1] } :=
  ⟨conf_b1_k1, conf_b1_k1_below, match_b1_k1⟩

/-- C5 counterexample: at the string pair of the empty string and the
string a, rule 2 applies, because the empty string is a substring of every
string, and the scorer returns 0.8; the rule-3 token score of this pair is
0, so the comparison does not fall through to rule 3 as the claim
states. -/
theorem similarity_empty_cex :
    calculateStringSimilarity "" "a" = 8/10 ∧ tokenScore "" "a" = 0 ∧
      (8/10 : ℚ) ≠ 0 := by
  refine ⟨?_, ?_, by norm_num⟩
  · unfold calculateStringSimilarity
    rw [if_neg (by decide), if_pos (by decide)]
  · unfold tokenScore
    simp [splitWhitespace, show ("" : String).data = [] from rfl]

/-- C5 (amended): the similarity scorer is total and never raises; when
both strings are empty rule 1 applies and the score is 1; when exactly one
string is empty rule 2 applies, because the empty string is a substring of
every string, and the score is 0.8; rule 3 is never reached on a pair with
an empty string. -/
theorem similarity_empty_cases (a b : String) :
    (a = "" → b = "" → calculateStringSimilarity a b = 1) ∧
    (a = "" → b ≠ "" → calculateStringSimilarity a b = 8/10) ∧
    (b = "" → a ≠ "" → calculateStringSimilarity a b = 8/10) := by
  refine ⟨?_, ?_, ?_⟩
  · rintro rfl rfl
    rfl
  · rintro rfl hb
    unfold calculateStringSimilarity
    rw [if_neg (fun hh : ("" : String) = b => hb hh.symm)]
    rw [if_pos (by rw [jsIncludes_empty_right b]; simp :
      (jsIncludes "" b || jsIncludes b "") = true)]
  · rintro rfl ha
    unfold calculateStringSimilarity
    rw [if_neg ha]
    rw [if_pos (by rw [jsIncludes_empty_right a]; simp :
      (jsIncludes a "" || jsIncludes "" a) = true)]

/-- C7: the summary calculator returns the bank-side sum of matched
amounts, the sums of the unmatched amounts, their difference as the
discrepancy, the balanced status exactly when the absolute discrepancy is
below 0.01, and the match percentage as matched count over total count
times 100, defined as 100 when the total is 0. -/
theorem calculateReconciliationSummary_spec (account : AccountInfo)
    (matched : List MatchedTransaction)
    (unmatchedBank unmatchedBook : List Transaction) :
    (calculateReconciliationSummary account matched unmatchedBank unmatchedBook).matchedAmount =
      (matched.map (fun m => m.bankTransaction.amount)).sum ∧
    (calculateReconciliationSummary account matched unmatchedBank unmatchedBook).unmatchedBankAmount =
      (unmatchedBank.map (fun tx => tx.amount)).sum ∧
    (calculateReconciliationSummary account matched unmatchedBank unmatchedBook).unmatchedBookAmount =
      (unmatchedBook.map (fun tx => tx.amount)).sum ∧
    (calculateReconciliationSummary account matched unmatchedBank unmatchedBook).discrepancy =
      (calculateReconciliationSummary account matched unmatchedBank unmatchedBook).unmatchedBankAmount -
      (calculateReconciliationSummary account matched unmatchedBank unmatchedBook).unmatchedBookAmount ∧
    ((calculateReconciliationSummary account matched unmatchedBank unmatchedBook).status =
        RecStatus.balanced ↔
      |(calculateReconciliationSummary account matched unmatchedBank unmatchedBook).discrepancy| <
        1/100) ∧
    (matched.length + unmatchedBank.length + unmatchedBook.length = 0 →
      (calculateReconciliationSummary account matched unmatchedBank unmatchedBook).matchPercentage =
        100) ∧
    (0 < matched.length + unmatchedBank.length + unmatchedBook.length →
      (calculateReconciliationSummary account matched unmatchedBank unmatchedBook).matchPercentage =
        (matched.length : ℚ) /
          ((matched.length + unmatchedBank.length + unmatchedBook.length : Nat) : ℚ) * 100) := by
  unfold calculateReconciliationSummary
  dsimp only
  refine ⟨?_, ?_, ?_, rfl, ?_, ?_, ?_⟩
  · rw [foldl_add_eq_sum, zero_add]
  · rw [foldl_add_eq_sum, zero_add]
  · rw [foldl_add_eq_sum, zero_add]
  · split_ifs with h
    · exact iff_of_true rfl h
    · exact iff_of_false (by decide) h
  · intro h
    rw [if_neg (by omega)]
  · intro h
    rw [if_pos h]

/-- C9: the two summary implementations are extensionally equal on every
input, and neither reads its account argument: the summary generator
applied to one account equals the summary calculator applied to any other
account on the same matched and unmatched lists, in every field. -/
theorem generate_eq_calculate_summary (a a' : AccountInfo)
    (matched : List MatchedTransaction) (ub uk : List Transaction) :
    generateReconciliationSummary a matched ub uk =
      calculateReconciliationSummary a' matched ub uk := rfl

/-! Phase-1 behavior on an exactly-matching pair. -/

theorem findExactMatches_book_survives {k : Transaction}
    (bank book : List Transaction)
    (hnb : ∀ b' ∈ bank, ¬isExactMatch b' k = true) (hk : k ∈ book) :
    k ∈ (findExactMatches bank book).2.1 := by
  induction bank with
  | nil => simpa [findExactMatches] using hk
  | cons b rest ih =>
    rw [findExactMatches]
    have hrest : ∀ b' ∈ rest, ¬isExactMatch b' k = true := fun b' hb' =>
      hnb b' (List.mem_cons_of_mem b hb')
    have hkstep : k ∈ (findExactMatches rest book).2.1 := ih hrest
    cases hfi : findExactIdx b (findExactMatches rest book).2.1 with
    | none => exact hkstep
    | some jk =>
      obtain ⟨j, k₀⟩ := jk
      obtain ⟨hj, hget, hmatch⟩ := findExactIdx_some_spec hfi
      have hne : k₀ ≠ k := by
        intro heq
        exact hnb b (List.mem_cons_self b rest) (heq ▸ hmatch)
      exact mem_eraseIdx_of_ne hj hkstep (by rw [hget]; exact hne)

theorem findExactMatches_unique_pair (bank book : List Transaction)
    (b k : Transaction) (hb : b ∈ bank) (hk : k ∈ book)
    (hbk : isExactMatch b k = true)
    (hub : ∀ b' ∈ bank, isExactMatch b' k = true → b' = b)
    (huk : ∀ k' ∈ book, isExactMatch b k' = true → k' = k) :
    (⟨b, k, 1, MatchMethod.exact⟩ : MatchedTransaction) ∈
      (findExactMatches bank book).2.2 := by
  induction bank with
  | nil => simp at hb
  | cons b₀ rest ih =>
    rw [findExactMatches]
    by_cases hbr : b ∈ rest
    · have hmem := ih hbr fun b' hb' h => hub b' (List.mem_cons_of_mem b₀ hb') h
      cases hfi : findExactIdx b₀ (findExactMatches rest book).2.1 with
      | none => exact hmem
      | some jk =>
        obtain ⟨j, k₀⟩ := jk
        exact List.mem_append_left _ hmem
    · have hbb : b = b₀ := by
        rcases List.mem_cons.mp hb with h | h
        · exact h
        · exact absurd h hbr
      subst hbb
      have hrest : ∀ b' ∈ rest, ¬isExactMatch b' k = true := by
        intro b' hb' hmatch
        exact hbr ((hub b' (List.mem_cons_of_mem b hb') hmatch) ▸ hb')
      have hsurv : k ∈ (findExactMatches rest book).2.1 :=
        findExactMatches_book_survives rest book hrest hk
      obtain ⟨jk, hfi⟩ := findExactIdx_mem_some hsurv hbk
      obtain ⟨j, k₀⟩ := jk
      obtain ⟨hj, hget, hmatch⟩ := findExactIdx_some_spec hfi
      have hk₀book : k₀ ∈ book :=
        (findExactMatches_book_sublist rest book).subset
          (hget ▸ List.get_mem _ _ _)
      have hk₀ : k₀ = k := huk k₀ hk₀book hmatch
      rw [hfi]
      subst hk₀
      exact List.mem_append_right _ (List.mem_singleton.mpr rfl)

/-- C3 (amended): when autoMatchExact is enabled and the input holds a bank
transaction b and a book transaction k agreeing exactly on amount, date
and reference (equal-absent references included), and moreover b is the
only bank transaction exactly matching k and k the only book transaction
exactly matching b, then the pair of b and k is matched by phase 1 with
confidence exactly 1 and method exact, even when fuzzyMatching is also
enabled.  Without the uniqueness conditions another exactly-equal bank
transaction can claim k first, as the counterexample shows. -/
theorem matchTransactions_exact_unique_pair (bank book : List Transaction)
    (s : MergedSettings) (b k : Transaction)
    (hA : s.autoMatchExact = true) (hb : b ∈ bank) (hk : k ∈ book)
    (hbk : isExactMatch b k = true)
    (hub : ∀ b' ∈ bank, isExactMatch b' k = true → b' = b)
    (huk : ∀ k' ∈ book, isExactMatch b k' = true → k' = k) :
    (⟨b, k, 1, MatchMethod.exact⟩ : MatchedTransaction) ∈
      (matchTransactions bank book s).matched := by
  unfold matchTransactions
  dsimp only
  rw [if_pos hA]
  exact List.mem_append_left _
    (findExactMatches_unique_pair bank book b k hb hk hbk hub huk)

/-- C3 counterexample: the input bank list holds two transactions both
exactly equal to the single book transaction in amount, date and (absent)
reference; with default settings the later bank transaction claims the
book transaction in phase 1, so the pair of the first bank transaction and
the book transaction has all three fields exactly equal yet is not matched
at all, contradicting the claim as stated. -/
theorem exact_pair_not_matched_cex :
    isExactMatch cexBank1 cexBook1 = true ∧
    defaultSettings.autoMatchExact = true ∧
    matchTransactions [cexBank1, cexBank2] [cexBook1] defaultSettings =
      { matched := [⟨cexBank2, cexBook1, 1, MatchMethod.exact⟩],
        unmatchedBank := [cexBank1], unmatchedBook := [] } ∧
    cexBank2 ≠ cexBank1 :=
  ⟨by decide, rfl, match_cex_eval, by decide⟩

/-! Witnesses instantiating the hypothesis-bearing theorems at concrete
inputs. -/

theorem processReconciliation_fuzzy_threshold_witness :
    (mergeSettings fuzzyData.settings).fuzzyThreshold ≤ (8/9 : ℚ) ∧
      (8/9 : ℚ) ≤ 1 := by
  have hm : (⟨fuzzyBank, fuzzyBook, 8/9, MatchMethod.fuzzy⟩ : MatchedTransaction) ∈
      (processReconciliation fuzzyData).matched := by
    rw [fuzzyData_matched]
    exact List.mem_singleton.mpr rfl
  exact processReconciliation_fuzzy_threshold fuzzyData _ hm rfl

theorem matchTransactions_exact_unique_pair_witness :
    (⟨refBank, refBook, 1, MatchMethod.exact⟩ : MatchedTransaction) ∈
      (matchTransactions [refBank] [refBook] defaultSettings).matched := by
  refine matchTransactions_exact_unique_pair [refBank] [refBook] defaultSettings
    refBank refBook rfl (by simp) (by simp) (by decide) ?_ ?_
  · intro b' hb' _
    simpa using hb'
  · intro k' hk' _
    simpa using hk'

theorem findFuzzyMatches_greedy_selection_witness :
    findFuzzyMatches [fuzzyBank] [fuzzyBook] defaultSettings =
      ((findFuzzyMatches [] [fuzzyBook] defaultSettings).1,
        (findFuzzyMatches [] [fuzzyBook] defaultSettings).2.1.eraseIdx 0,
        (findFuzzyMatches [] [fuzzyBook] defaultSettings).2.2 ++
          [⟨fuzzyBank, fuzzyBook, 8/9, MatchMethod.fuzzy⟩]) := by
  have h : bestFuzzy fuzzyBank (findFuzzyMatches [] [fuzzyBook] defaultSettings).2.1
      defaultSettings = some (0, fuzzyBook, 8/9) := by
    rw [show (findFuzzyMatches [] [fuzzyBook] defaultSettings).2.1 = [fuzzyBook] from rfl]
    exact bestFuzzy_fuzzy_pair
  exact (findFuzzyMatches_greedy_selection fuzzyBank [] [fuzzyBook] defaultSettings
    0 fuzzyBook (8/9) h).1

theorem similarity_empty_cases_witness :
    calculateStringSimilarity "" "" = 1 ∧
    calculateStringSimilarity "" "a" = 8/10 ∧
    calculateStringSimilarity "a" "" = 8/10 :=
  ⟨(similarity_empty_cases "" "").1 rfl rfl,
   (similarity_empty_cases "" "a").2.1 rfl (by decide),
   (similarity_empty_cases "a" "").2.2 rfl (by decide)⟩

theorem calculateReconciliationSummary_spec_witness :
    (calculateReconciliationSummary acctSample [] [] []).matchPercentage = 100 ∧
    (calculateReconciliationSummary acctSample [] [b1] []).matchPercentage =
      ((([] : List MatchedTransaction).length : ℚ) /
        ((([] : List MatchedTransaction).length + [b1].length +
          ([] : List Transaction).length : Nat) : ℚ) * 100) :=
  ⟨(calculateReconciliationSummary_spec acctSample [] [] []).2.2.2.2.2.1 rfl,
   (calculateReconciliationSummary_spec acctSample [] [b1] []).2.2.2.2.2.2 (by decide)⟩

theorem processReconciliation_preserves_inputs_witness :
    fuzzyBank ∈ fuzzyData.bankTransactions ∧
      fuzzyBook ∈ fuzzyData.bookTransactions := by
  have hm : (⟨fuzzyBank, fuzzyBook, 8/9, MatchMethod.fuzzy⟩ : MatchedTransaction) ∈
      (processReconciliation fuzzyData).matched := by
    rw [fuzzyData_matched]
    exact List.mem_singleton.mpr rfl
  exact (processReconciliation_preserves_inputs fuzzyData).1 _ hm

end FinancialPdf
